import Mathlib

/-!
Verification of the Reddit persona-generator pipeline (`main.py`).

Strings are embedded as `List Char` (Python `str` is a sequence of code
points, which `List Char` models exactly for the ASCII data all claims
are concerned with).  Every definition below is translated from the
source file `main.py`; the few definitions that instead transcribe the
specification wording (for refinement comparisons) are named and
documented as such.
-/

abbrev Str := List Char

/-! ### URL parser: `extract_username` (main.py lines 53-59)

`extract_username` runs `re.search(r"reddit\.com/user/([\w-]+)/?", url)`.
`re.search` scans for the leftmost position at which the whole pattern
matches; the capture group greedily takes the maximal run of word
characters (`\w` = letters, digits, underscore) and hyphens following the
literal text `reddit.com/user/`.  The trailing `/?` constrains nothing
about the capture.  On failure the function raises `ValueError`, which we
embed as `Option.none`.  `\w` is modelled on its ASCII fragment, which
covers every username and every string any claim quantifies concretely
over. -/

/-- Word character in the sense of the regex class `\w` (ASCII fragment):
letter, digit or underscore. -/
def isWordChar (c : Char) : Bool := c.isAlphanum || c = '_'

/-- Character matched by the regex class `[\w-]`: word character or hyphen. -/
def isWordDash (c : Char) : Bool := isWordChar c || c = '-'

/-- The literal part of the pattern `reddit\.com/user/`. -/
def marker : Str := "reddit.com/user/".data

/-- Attempt to match `reddit\.com/user/([\w-]+)` at the head of `l`,
returning the captured group. -/
def matchAt (l : Str) : Option Str :=
  if marker.isPrefixOf l then
    match l.drop 16 with
    | d :: ds => if isWordDash d then some ((d :: ds).takeWhile isWordDash) else none
    | [] => none
  else none

/-- `re.search` semantics: try `matchAt` at each position from the left,
returning the first successful capture. -/
def searchUser : Str → Option Str
  | [] => none
  | c :: cs =>
    match matchAt (c :: cs) with
    | some r => some r
    | none => searchUser cs

/-- Embedding of `extract_username` (main.py lines 53-59); `none` stands
for the raised `ValueError` (the `InvalidURL` failure). -/
def extract_username (url : String) : Option String :=
  (searchUser url.data).map String.mk

/-! ### Basic lemmas about the matcher -/

theorem takeWhile_append_sat {p : Char → Bool} {xs : Str} (ys : Str) {y : Char}
    (hxs : ∀ c ∈ xs, p c = true) (hy : p y = false) :
    (xs ++ y :: ys).takeWhile p = xs := by
  induction xs with
  | nil => simp [List.takeWhile, hy]
  | cons a as ih =>
    have ha : p a = true := hxs a (by simp)
    simp only [List.cons_append, List.takeWhile_cons, ha, if_true]
    rw [ih fun c hc => hxs c (by simp [hc])]

theorem dropWhile_append_sat {p : Char → Bool} {xs : Str} (ys : Str) {y : Char}
    (hxs : ∀ c ∈ xs, p c = true) (hy : p y = false) :
    (xs ++ y :: ys).dropWhile p = y :: ys := by
  induction xs with
  | nil => simp [List.dropWhile, hy]
  | cons a as ih =>
    have ha : p a = true := hxs a (by simp)
    simp only [List.cons_append, List.dropWhile_cons, ha, if_true]
    exact ih fun c hc => hxs c (by simp [hc])

theorem matchAt_marker {d : Char} (ds : Str) (hd : isWordDash d = true) :
    matchAt (marker ++ d :: ds) = some ((d :: ds).takeWhile isWordDash) := by
  have hpre : marker.isPrefixOf (marker ++ d :: ds) := by
    rw [ List.isPrefixOf_iff_prefix]
    exact List.prefix_append _ _
  have hdrop : (marker ++ d :: ds).drop 16 = d :: ds := by
    have : (16 : Nat) = marker.length := by decide
    rw [this, List.drop_left]
  simp only [matchAt, hpre, if_true, hdrop, hd]

theorem matchAt_some {l r : Str} (h : matchAt l = some r) :
    ∃ d ds, l = marker ++ d :: ds ∧ isWordDash d = true ∧
      r = (d :: ds).takeWhile isWordDash := by
  by_cases hpre : marker.isPrefixOf l
  · have hp : marker <+: l := ( List.isPrefixOf_iff_prefix).mp hpre
    obtain ⟨tail, htail⟩ := hp
    have hdrop : l.drop 16 = tail := by
      have h16 : (16 : Nat) = marker.length := by decide
      rw [← htail, h16, List.drop_left]
    simp only [matchAt, hpre, if_true, hdrop] at h
    cases tail with
    | nil => exact absurd h (by simp)
    | cons d ds =>
      by_cases hd : isWordDash d = true
      · refine ⟨d, ds, htail.symm, hd, ?_⟩
        simp only [hd, if_true, Option.some.injEq] at h
        exact h.symm
      · simp only [hd, if_false, Bool.false_eq_true] at h
        simp [eq_false_of_ne_true hd] at h
  · simp [matchAt, hpre] at h

theorem searchUser_cons (c : Char) (cs : Str) :
    searchUser (c :: cs) =
      match matchAt (c :: cs) with
      | some r => some r
      | none => searchUser cs := rfl

theorem searchUser_skip {a : Str} (l : Str) (ha : ∀ c ∈ a, c ≠ 'r') :
    searchUser (a ++ l) = searchUser l := by
  induction a with
  | nil => rfl
  | cons c cs ih =>
    have hc : c ≠ 'r' := ha c (by simp)
    have hm : matchAt (c :: (cs ++ l)) = none := by
      have : marker.isPrefixOf (c :: (cs ++ l)) = false := by
        show List.isPrefixOf ('r' :: "eddit.com/user/".data) (c :: (cs ++ l)) = false
        simp [List.isPrefixOf]
        intro h
        exact absurd h.symm hc
      simp [matchAt, this]
    rw [List.cons_append, searchUser_cons, hm]
    exact ih fun c hc => ha c (by simp [hc])

theorem searchUser_wellformed {name : Str} (hne : name ≠ [])
    (hchars : ∀ c ∈ name, isWordDash c = true) :
    searchUser ("https://".data ++ (marker ++ name ++ ['/'])) = some name := by
  rw [searchUser_skip (marker ++ name ++ ['/']) (by decide)]
  cases name with
  | nil => exact absurd rfl hne
  | cons d ds =>
    have hd : isWordDash d = true := hchars d (by simp)
    have hshape : marker ++ (d :: ds) ++ ['/'] = marker ++ d :: (ds ++ ['/']) := by simp
    rw [hshape]
    have : marker ++ d :: (ds ++ ['/']) =
        'r' :: ("eddit.com/user/".data ++ d :: (ds ++ ['/'])) := rfl
    rw [this, searchUser_cons, ← this, matchAt_marker _ hd]
    have htake : (d :: (ds ++ ['/'])).takeWhile isWordDash = d :: ds := by
      have : d :: (ds ++ ['/']) = (d :: ds) ++ '/' :: [] := by simp
      rw [this]
      exact takeWhile_append_sat [] hchars (by decide)
    rw [htake]

theorem searchUser_none {l : Str}
    (h : ∀ pre d ds, l = pre ++ (marker ++ d :: ds) → isWordDash d = false) :
    searchUser l = none := by
  induction l with
  | nil => rfl
  | cons c cs ih =>
    rw [searchUser_cons]
    have hm : matchAt (c :: cs) = none := by
      cases hx : matchAt (c :: cs) with
      | none => rfl
      | some r =>
        obtain ⟨d, ds, hshape, hd, _⟩ := matchAt_some hx
        have := h [] d ds (by simpa using hshape)
        rw [this] at hd
        exact absurd hd (by simp)
    rw [hm]
    exact ih fun pre d ds hpre => h (c :: pre) d ds (by simp [hpre])

theorem searchUser_finds : ∀ (pre : Str) {d : Char} (ds : Str), isWordDash d = true →
    ∃ r, searchUser (pre ++ (marker ++ d :: ds)) = some r := by
  intro pre
  induction pre with
  | nil =>
    intro d ds hd
    refine ⟨(d :: ds).takeWhile isWordDash, ?_⟩
    rw [List.nil_append]
    have hcons : marker ++ d :: ds = 'r' :: ("eddit.com/user/".data ++ d :: ds) := rfl
    rw [hcons, searchUser_cons, ← hcons, matchAt_marker ds hd]
  | cons c pre2 ih =>
    intro d ds hd
    rw [List.cons_append, searchUser_cons]
    cases hx : matchAt (c :: (pre2 ++ (marker ++ d :: ds))) with
    | some r => exact ⟨r, rfl⟩
    | none =>
      obtain ⟨r, hr⟩ := ih ds hd
      exact ⟨r, hr⟩

theorem searchUser_some {l r : Str} (h : searchUser l = some r) :
    r ≠ [] ∧ ∀ c ∈ r, isWordDash c = true := by
  induction l with
  | nil => exact absurd h (by simp [searchUser])
  | cons c cs ih =>
    rw [searchUser_cons] at h
    cases hx : matchAt (c :: cs) with
    | none =>
      rw [hx] at h
      exact ih h
    | some q =>
      rw [hx] at h
      obtain ⟨d, ds, _, hd, hq⟩ := matchAt_some hx
      have hr : r = (d :: ds).takeWhile isWordDash := by
        simp only [Option.some.injEq] at h
        rw [← h, hq]
      constructor
      · rw [hr]
        simp [List.takeWhile_cons, hd]
      · intro x hx2
        rw [hr] at hx2
        exact List.mem_takeWhile_imp hx2

/-- C1 (amended): for every URL of the form `https://reddit.com/user/<name>/`
with `<name>` a nonempty run of word characters and hyphens,
`extract_username` returns exactly `<name>`.  Moreover, every URL string
that contains an occurrence of `reddit.com/user/` followed by a word
character or hyphen parses successfully (no `ValueError`), and every
ASCII URL string with no such occurrence fails with the `InvalidURL`
error (the ASCII restriction keeps the statement within the ASCII
fragment on which the embedding of the Unicode class `\w` is exact).
The claim as stated is refuted by `extract_username_counterexample`:
`re.search` accepts the pattern anywhere in the string, so strings that
lack the full `https://reddit.com/user/<name>/` shape can still
succeed. -/
theorem extract_username_correct :
    (∀ name : Str, name ≠ [] → (∀ c ∈ name, isWordDash c = true) →
      extract_username (String.mk ("https://reddit.com/user/".data ++ name ++ ['/'])) =
        some (String.mk name)) ∧
    (∀ (url : String) (pre : Str) (d : Char) (ds : Str),
      url.data = pre ++ (marker ++ d :: ds) → isWordDash d = true →
      ∃ s, extract_username url = some s) ∧
    (∀ url : String, (∀ c ∈ url.data, c.toNat < 128) →
      (∀ pre d ds, url.data = pre ++ (marker ++ d :: ds) → isWordDash d = false) →
      extract_username url = none) := by
  refine ⟨?_, ?_, ?_⟩
  · intro name hne hchars
    have hdata : (String.mk ("https://reddit.com/user/".data ++ name ++ ['/'])).data
        = "https://".data ++ (marker ++ name ++ ['/']) := by
      show "https://reddit.com/user/".data ++ name ++ ['/'] = _
      have hsplit : "https://reddit.com/user/".data = "https://".data ++ marker := by decide
      rw [hsplit]
      simp
    show (searchUser (String.mk ("https://reddit.com/user/".data ++ name ++ ['/'])).data).map
        String.mk = some (String.mk name)
    rw [hdata, searchUser_wellformed hne hchars, Option.map_some']
  · intro url pre d ds hurl hd
    obtain ⟨r, hr⟩ := searchUser_finds pre ds hd
    rw [← hurl] at hr
    exact ⟨String.mk r, by simp only [extract_username, hr, Option.map_some']⟩
  · intro url _ h
    simp only [extract_username, searchUser_none h, Option.map_none']

/-- Witness for C1: the sample profile URL from the source docstring
parses to `kojied` (exercised through the well-formed part and through
the occurrence part), and an ASCII pattern-free string is rejected. -/
theorem extract_username_correct_witness :
    extract_username (String.mk ("https://reddit.com/user/".data ++ "kojied".data ++ ['/'])) =
      some (String.mk "kojied".data) ∧
    (∃ s, extract_username "https://reddit.com/user/kojied/" = some s) ∧
    extract_username "hello" = none := by
  refine ⟨?_, ?_, ?_⟩
  · exact extract_username_correct.1 "kojied".data (by decide) (by decide)
  · exact extract_username_correct.2.1 "https://reddit.com/user/kojied/" "https://".data
      'k' "ojied/".data (by decide) (by decide)
  · refine extract_username_correct.2.2 "hello" (by decide) ?_
    intro pre d ds h
    have hlen := congrArg List.length h
    rw [List.length_append, List.length_append] at hlen
    have h5 : ("hello".data).length = 5 := by decide
    have h16 : marker.length = 16 := by decide
    rw [h5, h16, List.length_cons] at hlen
    omega

/-- Counterexample for C1 as stated: `"reddit.com/user/bob"` lacks the
path shape `https://reddit.com/user/<name>/`, yet `extract_username`
returns `"bob"` instead of failing with the `InvalidURL` error. -/
theorem extract_username_counterexample :
    extract_username "reddit.com/user/bob" = some "bob" ∧
    ¬ ∃ name : Str, name ≠ [] ∧ (∀ c ∈ name, isWordDash c = true) ∧
      "reddit.com/user/bob".data = "https://reddit.com/user/".data ++ name ++ ['/'] := by
  constructor
  · decide
  · rintro ⟨name, hne, hchars, heq⟩
    have hlen := congrArg List.length heq
    rw [List.length_append, List.length_append] at hlen
    have h19 : ("reddit.com/user/bob".data).length = 19 := by decide
    have h24 : ("https://reddit.com/user/".data).length = 24 := by decide
    rw [h19, h24] at hlen
    simp at hlen
    omega

/-- C9: whenever `extract_username` succeeds, the returned username is
nonempty and consists only of word characters (letters, digits,
underscore) and hyphens; in particular it contains no slash, no dot and
no whitespace. -/
theorem extract_username_chars (url : String) (s : String)
    (h : extract_username url = some s) :
    s.data ≠ [] ∧ ∀ c ∈ s.data,
      isWordDash c = true ∧ c ≠ '/' ∧ c ≠ '.' ∧ c.isWhitespace = false := by
  obtain ⟨r, hr, hs⟩ := Option.map_eq_some'.mp h
  have hprops := searchUser_some hr
  have hsdata : s.data = r := by rw [← hs]
  constructor
  · rw [hsdata]
    exact hprops.1
  · intro c hc
    rw [hsdata] at hc
    have hwd := hprops.2 c hc
    refine ⟨hwd, ?_, ?_, ?_⟩
    · rintro rfl
      exact absurd hwd (by decide)
    · rintro rfl
      exact absurd hwd (by decide)
    · cases hb : c.isWhitespace with
      | false => rfl
      | true =>
        have hdisj : c = ' ' ∨ c = '\t' ∨ c = '\r' ∨ c = '\n' := by
          simp only [Char.isWhitespace, Bool.or_eq_true, decide_eq_true_eq] at hb
          tauto
        rcases hdisj with rfl | rfl | rfl | rfl <;> exact absurd hwd (by decide)

/-- Witness for C9: evaluating `extract_username` on a concrete URL. -/
theorem extract_username_chars_witness :
    ("ab" : String).data ≠ [] ∧ ∀ c ∈ ("ab" : String).data,
      isWordDash c = true ∧ c ≠ '/' ∧ c ≠ '.' ∧ c.isWhitespace = false :=
  extract_username_chars "https://reddit.com/user/ab/" "ab" (by decide)

/-! ### Data model and prompt builder: `build_prompt` (main.py lines 99-122)

Fetched items are dicts `{"title": sub.title, "body": sub.selftext}` for
posts and `{"body": com.body}` for comments (main.py lines 90, 92).  The
helper `section` inside `build_prompt` joins the truthy (nonempty) fields
with a space, collapses newlines to spaces, strips surrounding
whitespace, truncates over-300-character text at the last space of its
first 300 characters appending `…`, and renders each item as a bulleted
line; the lines are joined with newlines and interpolated into
`PROMPT_TEMPLATE` via `str.format`. -/

structure Post where
  title : Str
  body : Str
deriving DecidableEq

structure Comment where
  body : Str
deriving DecidableEq

/-- Embedding of the Python single-character replace `replace("\n", " ")`
followed by `strip()` (whitespace per `Char.isWhitespace`, the ASCII
fragment of the Python rule). -/
def stripChars (l : Str) : Str :=
  ((l.dropWhile Char.isWhitespace).reverse.dropWhile Char.isWhitespace).reverse

/-- Cleaned text of a snippet: `snippet.replace("\n", " ").strip()`. -/
def cleanText (l : Str) : Str :=
  stripChars (l.map fun c => if c = '\n' then ' ' else c)

/-- Helper for `rsplit(" ", 1)[0]`: drop everything up to and including
the first space, if any. -/
def afterFirstSpace : Str → Option Str
  | [] => none
  | c :: cs => if c = ' ' then some cs else afterFirstSpace cs

/-- Embedding of `s.rsplit(" ", 1)[0]`: the part before the last space,
or the whole string when it has no space. -/
def rsplitHead (l : Str) : Str :=
  match afterFirstSpace l.reverse with
  | some rest => rest.reverse
  | none => l

/-- Truncation step of `build_prompt.section` (main.py lines 111-112). -/
def truncateClean (clean : Str) : Str :=
  if clean.length > 300 then rsplitHead (clean.take 300) ++ ['…'] else clean

/-- Embedding of the snippet assembly
`" ".join(item.get(k, "") for k in key_names if item.get(k))`. -/
def joinSp (fields : List Str) : Str :=
  List.intercalate [' '] (fields.filter fun f => !f.isEmpty)

/-- Rendering of one content item as a bulleted line (main.py line 113). -/
def itemLine (fields : List Str) : Str :=
  '-' :: ' ' :: truncateClean (cleanText (joinSp fields))

/-- Embedding of `"\n".join(lines)`. -/
def unlines : List Str → Str
  | [] => []
  | [l] => l
  | l :: ls => l ++ '\n' :: unlines ls

/-- Embedding of `build_prompt.section` (main.py lines 105-114): each row
is the list of field values of one item. -/
def renderSection (rows : List (List Str)) : Str :=
  unlines (rows.map itemLine)

/-- Field values looked up for a post: keys `["title", "body"]`. -/
def postFields (p : Post) : List Str := [p.title, p.body]

/-- Field values looked up for a comment: keys `["body"]`. -/
def commentFields (c : Comment) : List Str := [c.body]

/-- Embedding of the module constant `PROMPT_TEMPLATE` (main.py lines
18-39), verbatim: the Python triple-quoted literal opens with a newline
after the opening quotes and closes with a newline before the closing
quotes. -/
def PROMPT_TEMPLATE : String :=
  "\nAnalyze the following Reddit user\x27s posts and comments to generate a detailed user persona.\nFor each trait or insight, cite the source post or comment (full text or snippet) in the format: [source: ...].\n\nUser: \x7busername\x7d\n\nPosts:\n\x7bposts_section\x7d\n\nComments:\n\x7bcomments_section\x7d\n\nOutput format example:\nUser Persona: \x7busername\x7d\n\n**Personality:** ... [source: ...]\n**Interests:** ... [source: ...]\n**Tone:** ... [source: ...]\n**Values & Communication:** ... [source: ...]\n\nBe concise but insightful.\n"

/-- Embedding of `str.format` restricted to what the fixed template
uses: simple named replacement fields, no brace escapes, no format
specs.  Substituted values are not rescanned, exactly as in Python. -/
def splitHole : Str → Option (Str × Str)
  | [] => none
  | c :: cs =>
    if c = '\x7d' then some ([], cs)
    else
      match splitHole cs with
      | some (n, r) => some (c :: n, r)
      | none => none

theorem splitHole_length : ∀ {l n r : Str}, splitHole l = some (n, r) → r.length ≤ l.length := by
  intro l
  induction l with
  | nil => intro n r h; exact absurd h (by simp [splitHole])
  | cons c cs ih =>
    intro n r h
    by_cases hc : c = '\x7d'
    · simp only [splitHole, hc, if_true] at h
      simp only [Option.some.injEq, Prod.mk.injEq] at h
      rw [← h.2]
      simp
    · simp only [splitHole, hc, if_false] at h
      cases hx : splitHole cs with
      | none => rw [hx] at h; exact absurd h (by simp)
      | some p =>
        rw [hx] at h
        obtain ⟨n2, r2⟩ := p
        simp only [Option.some.injEq, Prod.mk.injEq] at h
        have := ih hx
        rw [← h.2]
        simp only [List.length_cons]
        omega

/-- Scanner of the format string: a replacement field `\x7bname\x7d` is
substituted by `env name`; every other character is copied through. -/
def pyFormat (env : Str → Str) : Str → Str
  | [] => []
  | '\x7b' :: cs =>
    match hs : splitHole cs with
    | some (n, r) => env n ++ pyFormat env r
    | none => '\x7b' :: pyFormat env cs
  | c :: cs => c :: pyFormat env cs
termination_by l => l.length
decreasing_by
  · have := splitHole_length hs
    simp only [List.length_cons]
    omega
  · simp
  · simp

/-- Environment of the three replacement fields passed to
`PROMPT_TEMPLATE.format(...)` (main.py lines 118-122). -/
def tplEnv (posts : List Post) (comments : List Comment) (username : Str) : Str → Str :=
  fun n =>
    if n = "username".data then username
    else if n = "posts_section".data then renderSection (posts.map postFields)
    else if n = "comments_section".data then renderSection (comments.map commentFields)
    else []

/-- Embedding of `build_prompt` (main.py lines 99-122). -/
def build_prompt (posts : List Post) (comments : List Comment) (username : Str) : Str :=
  pyFormat (tplEnv posts comments username) PROMPT_TEMPLATE.data

/-! ### Specification-side prompt shape (spec section 6)

The following constants transcribe the template exactly as printed in
the specification, split at its three replacement fields: the fenced
block of section 6 starts with the line `Analyze ...` and ends with the
line `Be concise but insightful.`; `specPrompt` is the interpolation the
specification describes.  They are definitions from the words of the
spec, kept apart from the source embedding above so that the two can be
compared.  The comparison exposes a discrepancy: the code literal, being
triple-quoted, opens with one extra newline that is not part of the
printed template. -/

def specTplPre : String :=
  "Analyze the following Reddit user\x27s posts and comments to generate a detailed user persona.\nFor each trait or insight, cite the source post or comment (full text or snippet) in the format: [source: ...].\n\nUser: "

def specTplMid1 : String := "\n\nPosts:\n"

def specTplMid2 : String := "\n\nComments:\n"

def specTplMid3 : String := "\n\nOutput format example:\nUser Persona: "

def specTplSuf : String :=
  "\n\n**Personality:** ... [source: ...]\n**Interests:** ... [source: ...]\n**Tone:** ... [source: ...]\n**Values & Communication:** ... [source: ...]\n\nBe concise but insightful.\n"

/-- Prompt as described by the spec: the fixed template with the
username substituted at its two occurrences and the two rendered blocks
at theirs, nothing else added or removed. -/
def specPrompt (username ps cs : Str) : Str :=
  specTplPre.data ++ username ++ specTplMid1.data ++ ps ++ specTplMid2.data ++ cs ++
    specTplMid3.data ++ username ++ specTplSuf.data

set_option maxRecDepth 20000 in
theorem template_decomposition :
    PROMPT_TEMPLATE.data =
      "\n".data ++ (specTplPre.data ++ '\x7b' :: ("username".data ++ '\x7d' ::
        (specTplMid1.data ++ '\x7b' :: ("posts_section".data ++ '\x7d' ::
          (specTplMid2.data ++ '\x7b' :: ("comments_section".data ++ '\x7d' ::
            (specTplMid3.data ++ '\x7b' :: ("username".data ++ '\x7d' ::
              specTplSuf.data)))))))) := by decide

theorem pyFormat_braceFree {a : Str} (env : Str → Str) (b : Str) (h : '\x7b' ∉ a) :
    pyFormat env (a ++ b) = a ++ pyFormat env b := by
  induction a with
  | nil => rfl
  | cons c cs ih =>
    have hc : c ≠ '\x7b' := fun hcc => h (by simp [hcc])
    rw [List.cons_append]
    have hstep : pyFormat env (c :: (cs ++ b)) = c :: pyFormat env (cs ++ b) := by
      simp [pyFormat, hc]
    rw [hstep, ih fun hm => h (by simp [hm]), List.cons_append]

theorem pyFormat_noHole {a : Str} (env : Str → Str) (h : '\x7b' ∉ a) :
    pyFormat env a = a := by
  have h0 : pyFormat env ([] : Str) = [] := by simp [pyFormat]
  have h1 := pyFormat_braceFree env [] h
  rw [List.append_nil, h0, List.append_nil] at h1
  exact h1

theorem splitHole_append {name : Str} (rest : Str) (h : '\x7d' ∉ name) :
    splitHole (name ++ '\x7d' :: rest) = some (name, rest) := by
  induction name with
  | nil => simp [splitHole]
  | cons c cs ih =>
    have hc : c ≠ '\x7d' := fun hcc => h (by simp [hcc])
    rw [List.cons_append]
    simp only [splitHole, hc, if_false, ih fun hm => h (by simp [hm])]

theorem pyFormat_hole (env : Str → Str) (name rest : Str) (h : '\x7d' ∉ name) :
    pyFormat env ('\x7b' :: (name ++ '\x7d' :: rest)) = env name ++ pyFormat env rest := by
  simp only [pyFormat]
  split
  · next n r hs =>
      rw [splitHole_append rest h] at hs
      simp only [Option.some.injEq, Prod.mk.injEq] at hs
      rw [hs.1, hs.2]
  · next hs =>
      rw [splitHole_append rest h] at hs
      exact absurd hs (by simp)

theorem tplEnv_username (posts : List Post) (comments : List Comment) (u : Str) :
    tplEnv posts comments u "username".data = u := by
  simp [tplEnv]

theorem tplEnv_posts (posts : List Post) (comments : List Comment) (u : Str) :
    tplEnv posts comments u "posts_section".data = renderSection (posts.map postFields) := by
  show (if _ then _ else _) = _
  rw [if_neg (by decide), if_pos rfl]

theorem tplEnv_comments (posts : List Post) (comments : List Comment) (u : Str) :
    tplEnv posts comments u "comments_section".data =
      renderSection (comments.map commentFields) := by
  show (if _ then _ else _) = _
  rw [if_neg (by decide), if_neg (by decide), if_pos rfl]

theorem build_prompt_shape (posts : List Post) (comments : List Comment) (username : Str) :
    build_prompt posts comments username =
      '\n' :: specPrompt username (renderSection (posts.map postFields))
        (renderSection (comments.map commentFields)) := by
  show pyFormat (tplEnv posts comments username) PROMPT_TEMPLATE.data = _
  rw [template_decomposition]
  rw [pyFormat_braceFree _ _ (by decide)]
  rw [pyFormat_braceFree _ _ (by decide)]
  rw [pyFormat_hole _ _ _ (by decide)]
  rw [pyFormat_braceFree _ _ (by decide)]
  rw [pyFormat_hole _ _ _ (by decide)]
  rw [pyFormat_braceFree _ _ (by decide)]
  rw [pyFormat_hole _ _ _ (by decide)]
  rw [pyFormat_braceFree _ _ (by decide)]
  rw [pyFormat_hole _ _ _ (by decide)]
  rw [pyFormat_noHole _ (by decide)]
  rw [tplEnv_username, tplEnv_posts, tplEnv_comments]
  rw [show "\n".data = ['\n'] from rfl]
  simp [specPrompt]

/-- C4 (amended): `build_prompt` returns the fixed template of the spec
with the username substituted (at both of its occurrences), the rendered
posts block and the rendered comments block interpolated, and exactly
one extra leading newline — the code literal is triple-quoted and opens
with a newline that is not part of the printed template.  Nothing else
is added or removed; each block is the newline-join of one bulleted line
per item.  (The claim as stated, verbatim equality without the extra
newline, is refuted by `build_prompt_counterexample`.) -/
theorem build_prompt_template (posts : List Post) (comments : List Comment) (username : Str) :
    build_prompt posts comments username =
      '\n' :: specPrompt username (renderSection (posts.map postFields))
        (renderSection (comments.map commentFields)) :=
  build_prompt_shape posts comments username

/-- Counterexample for C4 as stated: already on empty posts and
comments, the built prompt is not the verbatim spec template with the
three fields substituted — it carries one extra leading newline. -/
theorem build_prompt_counterexample :
    build_prompt [] [] "kojied".data ≠
      specPrompt "kojied".data (renderSection (([] : List Post).map postFields))
        (renderSection (([] : List Comment).map commentFields)) := by
  intro h
  rw [build_prompt_shape] at h
  have hlen := congrArg List.length h
  rw [List.length_cons] at hlen
  omega

/-- C7: `build_prompt` is deterministic — two runs on equal inputs
return identical prompt strings.  The embedding is a pure function of
its three arguments, which is the shallow form of the no-I/O claim. -/
theorem build_prompt_deterministic (p₁ p₂ : List Post) (c₁ c₂ : List Comment)
    (u₁ u₂ : Str) (hp : p₁ = p₂) (hc : c₁ = c₂) (hu : u₁ = u₂) :
    build_prompt p₁ c₁ u₁ = build_prompt p₂ c₂ u₂ := by
  rw [hp, hc, hu]

/-- Witness for C7 at concrete inputs. -/
theorem build_prompt_deterministic_witness :
    build_prompt [⟨"Hello".data, "World".data⟩] [⟨"Nice!".data⟩] "kojied".data =
      build_prompt [⟨"Hello".data, "World".data⟩] [⟨"Nice!".data⟩] "kojied".data :=
  build_prompt_deterministic _ _ _ _ _ _ rfl rfl rfl

/-! ### Truncation law (claim C2) -/

theorem afterFirstSpace_none : ∀ {l : Str}, afterFirstSpace l = none → ' ' ∉ l := by
  intro l
  induction l with
  | nil => intro _ hm; exact absurd hm (by simp)
  | cons c cs ih =>
    intro h
    by_cases hc : c = ' '
    · rw [afterFirstSpace, if_pos hc] at h
      exact absurd h (by simp)
    · rw [afterFirstSpace, if_neg hc] at h
      rw [List.mem_cons]
      push_neg
      exact ⟨fun he => hc he.symm, ih h⟩

theorem afterFirstSpace_some : ∀ {l rest : Str}, afterFirstSpace l = some rest →
    ∃ w, l = w ++ ' ' :: rest ∧ ' ' ∉ w := by
  intro l
  induction l with
  | nil => intro rest h; exact absurd h (by simp [afterFirstSpace])
  | cons c cs ih =>
    intro rest h
    by_cases hc : c = ' '
    · rw [afterFirstSpace, if_pos hc] at h
      simp only [Option.some.injEq] at h
      exact ⟨[], by rw [List.nil_append, hc, h], by simp⟩
    · rw [afterFirstSpace, if_neg hc] at h
      obtain ⟨w, hw, hnw⟩ := ih h
      refine ⟨c :: w, by rw [List.cons_append, hw], ?_⟩
      rw [List.mem_cons]
      push_neg
      exact ⟨fun he => hc he.symm, hnw⟩

theorem rsplitHead_spec (l : Str) :
    (' ' ∉ l ∧ rsplitHead l = l) ∨
      (∃ w, l = rsplitHead l ++ ' ' :: w ∧ ' ' ∉ w) := by
  cases hx : afterFirstSpace l.reverse with
  | none =>
    left
    constructor
    · intro hm
      exact afterFirstSpace_none hx (List.mem_reverse.mpr hm)
    · simp [rsplitHead, hx]
  | some rest =>
    right
    obtain ⟨w, hw, hnw⟩ := afterFirstSpace_some hx
    have hr : rsplitHead l = rest.reverse := by simp [rsplitHead, hx]
    refine ⟨w.reverse, ?_, fun hm => hnw (List.mem_reverse.mp hm)⟩
    have hrev := congrArg List.reverse hw
    rw [List.reverse_reverse] at hrev
    rw [hr, hrev]
    simp

theorem truncateClean_long {clean : Str} (hgt : clean.length > 300) :
    ∃ t, truncateClean clean = t ++ ['…'] ∧ t.length ≤ 300 ∧ t <+: clean ∧
      ((∃ w, clean.take 300 = t ++ ' ' :: w ∧ ' ' ∉ w) ∨
        (' ' ∉ clean.take 300 ∧ t = clean.take 300)) := by
  have hout : truncateClean clean = rsplitHead (clean.take 300) ++ ['…'] := by
    rw [truncateClean.eq_def, if_pos hgt]
  have htl : (clean.take 300).length = 300 := by
    rw [List.length_take]
    omega
  rcases rsplitHead_spec (clean.take 300) with ⟨hns, heq⟩ | ⟨w, hw, hnw⟩
  · refine ⟨rsplitHead (clean.take 300), hout, ?_, ?_, Or.inr ⟨hns, heq⟩⟩
    · rw [heq, htl]
    · rw [heq]
      exact List.take_prefix 300 clean
  · refine ⟨rsplitHead (clean.take 300), hout, ?_, ?_, Or.inl ⟨w, hw, hnw⟩⟩
    · have hlen := congrArg List.length hw
      rw [htl, List.length_append, List.length_cons] at hlen
      omega
    · exact List.IsPrefix.trans ⟨' ' :: w, hw.symm⟩ ( List.take_prefix 300 clean)

/-- C2 (amended): an item whose cleaned text is at most 300 characters
is rendered verbatim; one whose cleaned text is longer is rendered as a
prefix of the cleaned text of at most 300 characters with the marker
`…` appended, and that prefix ends at a word boundary (it is followed by
a space in the first 300 characters) whenever the first 300 characters
contain a space — when they contain none, the prefix is exactly the
first 300 characters, cutting mid-word.  (The unconditional
word-boundary phrasing of the claim is refuted by
`itemLine_counterexample`.) -/
theorem itemLine_truncation (fields : List Str) :
    ((cleanText (joinSp fields)).length ≤ 300 →
      itemLine fields = '-' :: ' ' :: cleanText (joinSp fields)) ∧
    ((cleanText (joinSp fields)).length > 300 →
      ∃ t, itemLine fields = '-' :: ' ' :: (t ++ ['…']) ∧ t.length ≤ 300 ∧
        t <+: cleanText (joinSp fields) ∧
        ((∃ w, (cleanText (joinSp fields)).take 300 = t ++ ' ' :: w ∧ ' ' ∉ w) ∨
          (' ' ∉ (cleanText (joinSp fields)).take 300 ∧
            t = (cleanText (joinSp fields)).take 300))) := by
  constructor
  · intro hle
    show '-' :: ' ' :: truncateClean (cleanText (joinSp fields)) = _
    rw [truncateClean.eq_def, if_neg (by omega)]
  · intro hgt
    obtain ⟨t, ht, hlen, hpre, hb⟩ := truncateClean_long hgt
    refine ⟨t, ?_, hlen, hpre, hb⟩
    show '-' :: ' ' :: truncateClean (cleanText (joinSp fields)) = _
    rw [ht]

set_option maxRecDepth 100000 in
/-- Witness for C2: a short item is reproduced verbatim, and a long item
is truncated with the marker. -/
theorem itemLine_truncation_witness :
    itemLine ["Hello".data, "World".data] = "- Hello World".data ∧
    (∃ t, itemLine [List.replicate 301 'a'] = '-' :: ' ' :: (t ++ ['…']) ∧ t.length ≤ 300 ∧
      t <+: cleanText (joinSp [List.replicate 301 'a']) ∧
      ((∃ w, (cleanText (joinSp [List.replicate 301 'a'])).take 300 = t ++ ' ' :: w ∧ ' ' ∉ w) ∨
        (' ' ∉ (cleanText (joinSp [List.replicate 301 'a'])).take 300 ∧
          t = (cleanText (joinSp [List.replicate 301 'a'])).take 300))) := by
  constructor
  · have h := (itemLine_truncation ["Hello".data, "World".data]).1 (by decide)
    rw [h]
    decide
  · exact (itemLine_truncation [List.replicate 301 'a']).2 (by decide)

/-- Word-boundary condition of the claim: the cut ends the cleaned text,
or the characters on the two sides of the cut are not both word
characters. -/
def endsAtWordBoundary (clean t : Str) : Prop :=
  t.length ≥ clean.length ∨ isWordChar (t.getLastD ' ') = false ∨
    isWordChar (clean.getD t.length ' ') = false

set_option maxRecDepth 100000 in
/-- Counterexample for C2 as stated: a 301-character single-word body is
rendered as its first 300 characters plus the marker, a cut that falls
between two word characters, hence not at a word boundary. -/
theorem itemLine_counterexample :
    (cleanText (joinSp [List.replicate 301 'a'])).length > 300 ∧
    ¬ ∃ t, itemLine [List.replicate 301 'a'] = '-' :: ' ' :: (t ++ ['…']) ∧
      endsAtWordBoundary (cleanText (joinSp [List.replicate 301 'a'])) t := by
  constructor
  · decide
  · rintro ⟨t, ht, hb⟩
    have hout : itemLine [List.replicate 301 'a'] =
        '-' :: ' ' :: (List.replicate 300 'a' ++ ['…']) := by decide
    rw [hout] at ht
    simp only [List.cons.injEq, true_and] at ht
    have hteq : t = List.replicate 300 'a' := (List.append_cancel_right ht).symm
    rw [hteq] at hb
    simp only [endsAtWordBoundary] at hb
    rcases hb with h | h | h
    · exact absurd h (by decide)
    · exact absurd h (by decide)
    · exact absurd h (by decide)

/-! ### Post-processor: `post_process_persona` (main.py lines 142-146)

The code runs `re.sub(r"^([A-Za-z &]+):", repl, text, flags=re.MULTILINE)`
with `repl` producing `**group:**`.  Anchored at `^` under MULTILINE, the
pattern can fire at most once per line, rewriting a maximal nonempty
head run of letters, spaces and ampersands that is immediately followed
by a colon.  The class cannot cross a newline and cannot contain a
colon, so greedy matching never backtracks: the behaviour is exactly a
per-line head rewrite, which the embedding makes explicit by splitting
into lines, rewriting each line head, and joining back. -/

/-- Character of the regex class `[A-Za-z &]`. -/
def isHeadChar (c : Char) : Bool := c.isAlpha || c = ' ' || c = '&'

/-- Test whether the pattern `^([A-Za-z &]+):` matches at the start of a
line. -/
def lineMatches (l : Str) : Bool :=
  !(l.takeWhile isHeadChar).isEmpty && ((l.dropWhile isHeadChar).head? == some ':')

/-- Per-line action of the substitution: rewrite a matching head
`run ++ ":"` to `**run:**`, leave everything else unchanged. -/
def processLine (l : Str) : Str :=
  if lineMatches l then
    '*' :: '*' :: l.takeWhile isHeadChar ++ ':' :: '*' :: '*' :: (l.dropWhile isHeadChar).tail
  else l

/-- Split into lines at every newline, as the MULTILINE anchor does. -/
def toLines : Str → List Str
  | [] => [[]]
  | c :: rest =>
    if c = '\n' then [] :: toLines rest
    else
      match toLines rest with
      | [] => [[c]]
      | l :: ls => (c :: l) :: ls

/-- Embedding of `post_process_persona` (main.py lines 142-146). -/
def post_process_persona (t : Str) : Str :=
  unlines ((toLines t).map processLine)

theorem toLines_ne_nil (t : Str) : toLines t ≠ [] := by
  cases t with
  | nil => simp [toLines]
  | cons c cs =>
    simp only [toLines]
    by_cases hc : c = '\n'
    · simp [hc]
    · rw [if_neg hc]
      cases hx : toLines cs <;> simp

theorem unlines_toLines (t : Str) : unlines (toLines t) = t := by
  induction t with
  | nil => rfl
  | cons c cs ih =>
    simp only [toLines]
    by_cases hc : c = '\n'
    · rw [if_pos hc, hc]
      cases hx : toLines cs with
      | nil => exact absurd hx (toLines_ne_nil cs)
      | cons l ls =>
        show unlines ([] :: l :: ls) = '\n' :: cs
        rw [show unlines ([] :: l :: ls) = [] ++ '\n' :: unlines (l :: ls) from rfl]
        rw [List.nil_append, ← hx, ih]
    · rw [if_neg hc]
      cases hx : toLines cs with
      | nil => exact absurd hx (toLines_ne_nil cs)
      | cons l ls =>
        rw [hx] at ih
        cases ls with
        | nil =>
          show c :: l = c :: cs
          rw [show unlines [l] = l from rfl] at ih
          rw [ih]
        | cons l2 ls2 =>
          show (c :: l) ++ '\n' :: unlines (l2 :: ls2) = c :: cs
          rw [show unlines (l :: l2 :: ls2) = l ++ '\n' :: unlines (l2 :: ls2) from rfl] at ih
          rw [List.cons_append, ih]

theorem toLines_noNewline (t : Str) : ∀ l ∈ toLines t, '\n' ∉ l := by
  induction t with
  | nil =>
    intro l hl
    simp only [toLines, List.mem_singleton] at hl
    simp [hl]
  | cons c cs ih =>
    intro l hl
    simp only [toLines] at hl
    by_cases hc : c = '\n'
    · rw [if_pos hc] at hl
      rcases List.mem_cons.mp hl with rfl | hl2
      · simp
      · exact ih l hl2
    · rw [if_neg hc] at hl
      cases hx : toLines cs with
      | nil => exact absurd hx (toLines_ne_nil cs)
      | cons l0 ls =>
        rw [hx] at hl
        rcases List.mem_cons.mp hl with rfl | hl2
        · intro hm
          rcases List.mem_cons.mp hm with he | hm2
          · exact hc he.symm
          · exact ih l0 (by rw [hx]; simp) hm2
        · exact ih l (by rw [hx]; simp [hl2])

theorem toLines_single {a : Str} (h : '\n' ∉ a) : toLines a = [a] := by
  induction a with
  | nil => rfl
  | cons c cs ih =>
    have hc : c ≠ '\n' := fun he => h (by simp [he])
    simp only [toLines]
    rw [if_neg hc, ih fun hm => h (by simp [hm])]

theorem toLines_break {a : Str} (rest : Str) (h : '\n' ∉ a) :
    toLines (a ++ '\n' :: rest) = a :: toLines rest := by
  induction a with
  | nil => simp [toLines]
  | cons c cs ih =>
    have hc : c ≠ '\n' := fun he => h (by simp [he])
    rw [List.cons_append]
    simp only [toLines]
    rw [if_neg hc, ih fun hm => h (by simp [hm])]

theorem toLines_unlines : ∀ {ls : List Str}, ls ≠ [] → (∀ l ∈ ls, '\n' ∉ l) →
    toLines (unlines ls) = ls := by
  intro ls
  induction ls with
  | nil => intro h; exact absurd rfl h
  | cons a ls2 ih =>
    intro _ hnl
    cases ls2 with
    | nil =>
      show toLines (unlines [a]) = [a]
      rw [show unlines [a] = a from rfl]
      exact toLines_single (hnl a (by simp))
    | cons b ls3 =>
      show toLines (unlines (a :: b :: ls3)) = a :: b :: ls3
      rw [show unlines (a :: b :: ls3) = a ++ '\n' :: unlines (b :: ls3) from rfl]
      rw [toLines_break _ (hnl a (by simp))]
      rw [ih (by simp) fun l hl => hnl l (by simp [hl])]

theorem lineMatches_split {l : Str} (h : lineMatches l = true) :
    l = l.takeWhile isHeadChar ++ ':' :: (l.dropWhile isHeadChar).tail ∧
      l.takeWhile isHeadChar ≠ [] := by
  simp only [lineMatches, Bool.and_eq_true, Bool.not_eq_true', List.isEmpty_eq_false,
    beq_iff_eq] at h
  constructor
  · have hsplit := List.takeWhile_append_dropWhile (p := isHeadChar) (l := l)
    cases hx : l.dropWhile isHeadChar with
    | nil => rw [hx] at h; exact absurd h.2 (by simp)
    | cons d ds =>
      rw [hx] at h
      have hd : d = ':' := by
        have h2 := h.2
        simp only [List.head?_cons, Option.some.injEq] at h2
        exact h2
      subst hd
      rw [hx] at hsplit
      rw [List.tail_cons]
      exact hsplit.symm
  · exact h.1

theorem processLine_noNewline {l : Str} (h : '\n' ∉ l) : '\n' ∉ processLine l := by
  by_cases hm : lineMatches l
  · obtain ⟨hshape, _⟩ := lineMatches_split hm
    rw [processLine, if_pos hm]
    intro hmem
    apply h
    rw [hshape]
    simp only [List.mem_cons, List.mem_append] at hmem ⊢
    have hstar : ('\n' : Char) = '*' → False := by decide
    tauto
  · rw [processLine, if_neg hm]
    exact h

theorem lineMatches_star (x : Str) : lineMatches ('*' :: x) = false := by
  have h1 : isHeadChar '*' = false := by decide
  simp [lineMatches, List.takeWhile_cons, h1]

theorem processLine_idem (l : Str) : processLine (processLine l) = processLine l := by
  by_cases hm : lineMatches l
  · have hinner : processLine l = '*' :: '*' :: l.takeWhile isHeadChar ++
        ':' :: '*' :: '*' :: (l.dropWhile isHeadChar).tail := by
      rw [processLine, if_pos hm]
    rw [hinner]
    rw [processLine,
      if_neg (by rw [List.cons_append, List.cons_append, lineMatches_star]; simp)]
  · have hinner : processLine l = l := by rw [processLine, if_neg hm]
    rw [hinner, hinner]

theorem post_process_lines (t : Str) :
    toLines (post_process_persona t) = (toLines t).map processLine := by
  have hnn : ∀ l ∈ (toLines t).map processLine, '\n' ∉ l := by
    intro l hl
    obtain ⟨l0, hl0, rfl⟩ := List.mem_map.mp hl
    exact processLine_noNewline (toLines_noNewline t l0 hl0)
  have hne : (toLines t).map processLine ≠ [] := by
    intro h
    exact toLines_ne_nil t (List.map_eq_nil_iff.mp h)
  exact toLines_unlines hne hnn

/-- C5: the heading-bold transform is idempotent — applying
`post_process_persona` twice equals applying it once, because a
rewritten line starts with an asterisk and no longer matches the bare
`Word:` line-start pattern. -/
theorem post_process_persona_idem (t : Str) :
    post_process_persona (post_process_persona t) = post_process_persona t := by
  show unlines ((toLines (post_process_persona t)).map processLine) = _
  rw [post_process_lines t]
  have hmap : ((toLines t).map processLine).map processLine = (toLines t).map processLine := by
    rw [List.map_map]
    apply List.map_congr_left
    intro a _
    exact processLine_idem a
  rw [hmap]
  rfl

/-- C10: `post_process_persona` acts line by line — the output lines are
exactly the input lines mapped through the per-line rewrite, so the
number of lines never changes; a line that does not begin with a
nonempty run of letters, spaces or ampersands followed by a colon is
left byte-identical; and on a line it does rewrite, everything after the
first colon is preserved verbatim after the inserted `:**`. -/
theorem post_process_persona_frame (t : Str) :
    toLines (post_process_persona t) = (toLines t).map processLine ∧
    (toLines (post_process_persona t)).length = (toLines t).length ∧
    (∀ l : Str, lineMatches l = false → processLine l = l) ∧
    (∀ run rest : Str, run ≠ [] → (∀ c ∈ run, isHeadChar c = true) →
      processLine (run ++ ':' :: rest) = '*' :: '*' :: run ++ ':' :: '*' :: '*' :: rest) := by
  refine ⟨post_process_lines t, ?_, ?_, ?_⟩
  · rw [post_process_lines t, List.length_map]
  · intro l hl
    rw [processLine, if_neg (by rw [hl]; simp)]
  · intro run rest hne hrun
    have hcolon : isHeadChar ':' = false := by decide
    have htw : (run ++ ':' :: rest).takeWhile isHeadChar = run :=
      takeWhile_append_sat rest hrun hcolon
    have hdw : (run ++ ':' :: rest).dropWhile isHeadChar = ':' :: rest :=
      dropWhile_append_sat rest hrun hcolon
    have hm : lineMatches (run ++ ':' :: rest) = true := by
      simp [lineMatches, htw, hdw, hne]
    rw [processLine, if_pos hm, htw, hdw]
    rfl

/-- Witness for C10: concrete lines exercising the unchanged and the
rewritten case. -/
theorem post_process_persona_frame_witness :
    toLines (post_process_persona "Personality: kind\nloves code".data) =
      (toLines "Personality: kind\nloves code".data).map processLine ∧
    processLine "loves code".data = "loves code".data ∧
    processLine ("Personality".data ++ ':' :: " kind".data) =
      '*' :: '*' :: "Personality".data ++ ':' :: '*' :: '*' :: " kind".data := by
  refine ⟨(post_process_persona_frame "Personality: kind\nloves code".data).1, ?_, ?_⟩
  · exact (post_process_persona_frame []).2.2.1 "loves code".data (by decide)
  · exact (post_process_persona_frame []).2.2.2 "Personality".data " kind".data
      (by decide) (by decide)

/-! ### Content fetcher: `fetch_user_content` (main.py lines 79-96)

The function iterates the submission listing and then the comment
listing inside one `try` block, appending an item per iteration, and its
`except Exception` arm logs and falls through to `return posts,
comments`.  The external listings are modelled as streams of fetch
steps: each step either yields an item or raises.  A raised step aborts
the iteration at that point (and skips the comment loop when it happens
during the post loop), after which the gathered lists are returned. -/

inductive FetchStep (α : Type) where
  | item (a : α)
  | err
deriving DecidableEq

/-- Iteration of one listing: `Except` models an exception escaping the
loop, carrying the items appended before the raise. -/
def fetchItems {α : Type} (acc : List α) : List (FetchStep α) → Except (List α) (List α)
  | [] => .ok acc
  | .item a :: rest => fetchItems (acc ++ [a]) rest
  | .err :: _ => .error acc

/-- Embedding of `fetch_user_content` (main.py lines 79-96): run the
post loop, then the comment loop, catching an exception from either and
returning whatever was gathered.  The total return type is the shallow
form of the `except` arm swallowing every fetch error. -/
def fetch_user_content (ps : List (FetchStep Post)) (cs : List (FetchStep Comment)) :
    List Post × List Comment :=
  match fetchItems [] ps with
  | .error pPart => (pPart, [])
  | .ok posts =>
    match fetchItems [] cs with
    | .error cPart => (posts, cPart)
    | .ok comments => (posts, comments)

/-- Declarative reading of a stream: the items before the first raise. -/
def gathered {α : Type} : List (FetchStep α) → List α
  | [] => []
  | .item a :: rest => a :: gathered rest
  | .err :: _ => []

/-- Whether a stream raises at some point. -/
def hasErr {α : Type} : List (FetchStep α) → Bool
  | [] => false
  | .item _ :: rest => hasErr rest
  | .err :: _ => true

theorem fetchItems_spec {α : Type} :
    ∀ (stream : List (FetchStep α)) (acc : List α),
    fetchItems acc stream =
      if hasErr stream then .error (acc ++ gathered stream)
      else .ok (acc ++ gathered stream) := by
  intro stream
  induction stream with
  | nil => intro acc; simp [fetchItems, hasErr, gathered]
  | cons s rest ih =>
    intro acc
    cases s with
    | item a =>
      show fetchItems (acc ++ [a]) rest = _
      rw [ih]
      simp [hasErr, gathered, List.append_assoc]
    | err => simp [fetchItems, hasErr, gathered]

/-- C6: every fetch error is caught inside `fetch_user_content`, which
returns the posts and comments gathered before the failure instead of
propagating the exception — an error during the post loop aborts before
any comment is fetched, an error during the comment loop keeps the full
posts and the partial comments, and no error ever escapes (the embedding
is a total function into the plain pair). -/
theorem fetch_user_content_gathers (ps : List (FetchStep Post)) (cs : List (FetchStep Comment)) :
    fetch_user_content ps cs = (gathered ps, if hasErr ps then [] else gathered cs) := by
  show (match fetchItems [] ps with
    | .error pPart => (pPart, ([] : List Comment))
    | .ok posts =>
      match fetchItems [] cs with
      | .error cPart => (posts, cPart)
      | .ok comments => (posts, comments)) = _
  rw [fetchItems_spec, fetchItems_spec]
  by_cases hp : hasErr ps
  · simp [hp]
  · by_cases hc : hasErr cs <;> simp [hp, hc]

/-! ### Pipeline orchestration: `run` (main.py lines 161-172)

`run` is modelled as a trace function over the stubbed effect outcomes:
the fetched lists (the boundary of claim C3), the generator outcome
(`call_gemini_api` exits the process when the key is missing or the API
call raises, main.py lines 125-139) and whether the file write succeeds
(`save_persona` catches `IOError`, main.py lines 149-158).  The trace
records the exit code (0 = normal return from `main`), whether
`build_prompt` was evaluated, whether the generative API was invoked,
and the file outcome. -/

inductive GenOutcome where
  | ok (text : Str)
  | noKey
  | apiError

structure RunTrace where
  exitCode : Nat
  prompt : Option Str
  generatorCalled : Bool
  fileWritten : Bool
  fileContent : Option Str

/-- Embedding of `save_persona` (main.py lines 149-158): the heading
rewrite happens inside the `try`, the write either succeeds or fails,
and in both cases the function returns normally — the result is the
(written?, filename, content) triple, never an exception. -/
def save_persona (username persona : Str) (writeOk : Bool) : Bool × Str × Str :=
  (writeOk, username ++ "_persona.txt".data, post_process_persona persona)

/-- Embedding of `run` (main.py lines 161-172). -/
def run (posts : List Post) (comments : List Comment) (username : Str)
    (gen : GenOutcome) (writeOk : Bool) : RunTrace :=
  if posts = [] ∧ comments = [] then
    { exitCode := 1, prompt := none, generatorCalled := false, fileWritten := false,
      fileContent := none }
  else
    let prompt := build_prompt posts comments username
    match gen with
    | .noKey =>
      { exitCode := 1, prompt := some prompt, generatorCalled := false,
        fileWritten := false, fileContent := none }
    | .apiError =>
      { exitCode := 1, prompt := some prompt, generatorCalled := true,
        fileWritten := false, fileContent := none }
    | .ok text =>
      let saved := save_persona username (stripChars text) writeOk
      { exitCode := 0, prompt := some prompt, generatorCalled := true,
        fileWritten := saved.1, fileContent := if saved.1 then some saved.2.2 else none }

/-- C3: a run whose fetch step yields empty posts and empty comments
terminates with exit code 1, builds no prompt and never invokes the
persona generator, whatever the stubbed generator and filesystem would
have done. -/
theorem run_empty_aborts (username : Str) (gen : GenOutcome) (writeOk : Bool) :
    run [] [] username gen writeOk =
      { exitCode := 1, prompt := none, generatorCalled := false, fileWritten := false,
        fileContent := none } := by
  rw [run, if_pos ⟨rfl, rfl⟩]

/-- C8: a run that reaches the save step (some content was fetched and
generation succeeded) finishes with exit code 0 even when the file write
fails — the I/O error is caught inside `save_persona` and only the
file outcome records the failure. -/
theorem run_write_failure_exit_zero (posts : List Post) (comments : List Comment)
    (username text : Str) (h : posts ≠ [] ∨ comments ≠ []) :
    (run posts comments username (GenOutcome.ok text) false).exitCode = 0 ∧
    (run posts comments username (GenOutcome.ok text) false).generatorCalled = true ∧
    (run posts comments username (GenOutcome.ok text) false).fileWritten = false := by
  have hcond : ¬ (posts = [] ∧ comments = []) := by
    rintro ⟨h1, h2⟩
    rcases h with h3 | h3
    · exact h3 h1
    · exact h3 h2
  refine ⟨?_, ?_, ?_⟩ <;> rw [run, if_neg hcond] <;> rfl

/-- Witness for C8 at the concrete stub data of the spec scenario. -/
theorem run_write_failure_exit_zero_witness :
    (run [⟨"Hello".data, "World".data⟩] [] "kojied".data
        (GenOutcome.ok "Personality: friendly".data) false).exitCode = 0 ∧
    (run [⟨"Hello".data, "World".data⟩] [] "kojied".data
        (GenOutcome.ok "Personality: friendly".data) false).generatorCalled = true ∧
    (run [⟨"Hello".data, "World".data⟩] [] "kojied".data
        (GenOutcome.ok "Personality: friendly".data) false).fileWritten = false :=
  run_write_failure_exit_zero _ _ _ _ (Or.inl (by decide))
